import Mathlib

/-!
# Verification of the stm32plus event-dispatch and network-stack specification

Shallow embedding of the relevant parts of the stm32plus sources
(`src/unnamed/part_000..002`, `src/examples/...`) together with models,
taken from the specification text, of the library components whose
implementations are not part of the source excerpt (event source registry,
millisecond timer comparison, ARP cache, ICMP pending-request table,
ping orchestration, network stack orchestrator).
-/

namespace Stm32plus

/-! ## ADC single-conversion interrupt example (src/examples/adc_single_interrupts) -/

/-- Event kinds reported to the ADC interrupt callback.  The example
(`adc_single_interrupts.cpp` line 169) compares against
`EVENT_REGULAR_END_OF_CONVERSION`; the enumeration has further members in
the library, of which a representative sample is included so that the
callback can be exercised on non-matching kinds. -/
inductive AdcEventType
  | EVENT_REGULAR_END_OF_CONVERSION
  | EVENT_INJECTED_END_OF_CONVERSION
  | EVENT_ANALOG_WATCHDOG
  | EVENT_OVERFLOW
  deriving DecidableEq, Repr

/-- The member state of the `AdcSingleInterrupts` example class: its only
data member is the `volatile bool _ready` flag
(`adc_single_interrupts.cpp` line 54). -/
structure AdcSingleInterruptsState where
  _ready : Bool
  deriving DecidableEq, Repr

/-- `AdcSingleInterrupts::onInterrupt` (`adc_single_interrupts.cpp`
lines 167-171): sets `_ready` when ADC number 1 reports a regular
end-of-conversion, otherwise does nothing. -/
def AdcSingleInterrupts.onInterrupt (eventType : AdcEventType) (adcNumber : Nat)
    (s : AdcSingleInterruptsState) : AdcSingleInterruptsState :=
  if adcNumber = 1 ∧ eventType = AdcEventType.EVENT_REGULAR_END_OF_CONVERSION then
    { s with _ready := true }
  else
    s

/-! ## USB setup-stage interrupt event (src/unnamed/part_000) -/

/-- USB event kinds.  The excerpt (`part_000` line 19) uses
`DEVICE_IRQ_SETUP_STAGE`; the enumeration has further members in the
library, a sample of which is included here. -/
inductive UsbEventType
  | DEVICE_IRQ_SETUP_STAGE
  | DEVICE_IRQ_RESUME
  | DEVICE_IRQ_SUSPEND
  | DEVICE_IRQ_RESET
  deriving DecidableEq, Repr

/-- Base class of all USB event descriptors: carries the event kind. -/
structure UsbEventDescriptor where
  eventType : UsbEventType
  deriving DecidableEq, Repr

/-- `DeviceSdkSetupStageInterruptEvent` (`part_000` lines 17-21) adds no
data of its own; its only constructor forwards
`EventType::DEVICE_IRQ_SETUP_STAGE` to the base-class constructor, so a
value of the type is determined entirely by that choice.  The embedding
gives the type no fields and interprets every value through the base
descriptor that the sole constructor builds. -/
structure DeviceSdkSetupStageInterruptEvent : Type where
  deriving DecidableEq, Repr

/-- The base-class subobject of a `DeviceSdkSetupStageInterruptEvent`, as
built by the type's only constructor (`part_000` lines 18-20). -/
def DeviceSdkSetupStageInterruptEvent.toUsbEventDescriptor
    (_e : DeviceSdkSetupStageInterruptEvent) : UsbEventDescriptor :=
  { eventType := UsbEventType.DEVICE_IRQ_SETUP_STAGE }

/-! ## Millisecond timer (time source interface) -/

/-- The wrap-around modulus of the 32-bit monotonic millisecond counter. -/
def U32 : Nat := 2 ^ 32

/-- Modelled from the spec: the time source interface's
`elapsedSince(mark) -> millis` (spec section 6), the elapsed milliseconds
since `mark` computed modulo the wrap-around of the 32-bit monotonic
counter.  `MillisecondTimer`'s implementation is not part of the source
excerpt; only its call site (`part_002` line 109) is. -/
def MillisecondTimer.elapsedSince (now mark : Nat) : Nat :=
  (now % U32 + U32 - mark % U32) % U32

/-- Modelled from the spec: `MillisecondTimer::hasTimedOut(mark, budget)`
(spec section 6), the overflow-safe comparison of the elapsed time since
`mark` against `budget`.  The current counter reading is passed explicitly
as `now`. -/
def MillisecondTimer.hasTimedOut (now mark budget : Nat) : Bool :=
  budget ≤ MillisecondTimer.elapsedSince now mark

/-! ## Event descriptor and dispatch core -/

/-- An event source identity (spec glossary). -/
abbrev SourceId := Nat

/-- A subscriber handle: a callable plus opaque context, identified here by
an id (spec section 3, Subscriber Registry). -/
abbrev SubscriberId := Nat

/-- Modelled from the spec: the Subscriber Registry of the Event Descriptor
and Dispatch Core (spec sections 3 and 4.1) — an ordered collection, keyed
by event-source identity, of subscriber handles, where insertion order
determines dispatch order.  The `insertSubscriber`/`publish`
implementations are not part of the source excerpt; only call sites
(`part_001` lines 679-688, `part_002` line 73) are. -/
structure EventSourceRegistry where
  subscribers : List (SourceId × SubscriberId)
  deriving DecidableEq, Repr

/-- Modelled from the spec: `insertSubscriber` registers a subscriber for a
source, appending it after all previously registered subscribers (spec
section 3: insertion order determines dispatch order). -/
def insertSubscriber (r : EventSourceRegistry) (src : SourceId)
    (sub : SubscriberId) : EventSourceRegistry :=
  { subscribers := r.subscribers ++ [(src, sub)] }

/-- Modelled from the spec: `publish(sourceId, event)` invokes every
currently-registered subscriber for `sourceId`, in registration order,
synchronously, passing the event unchanged (spec section 4.1).  The result
is the complete sequence of invocations performed, in order. -/
def publish (r : EventSourceRegistry) (src : SourceId) (event : Nat) :
    List (SubscriberId × Nat) :=
  (r.subscribers.filter (fun p => p.1 == src)).map (fun p => (p.2, event))

/-- Running a sequence of subscribe operations against the empty registry. -/
def subscribeAll (ops : List (SourceId × SubscriberId)) : EventSourceRegistry :=
  ops.foldl (fun r p => insertSubscriber r p.1 p.2) { subscribers := [] }

/-! ## Ping application layer -/

/-- Result of one ping cycle: a measured round-trip time or a timeout
(spec section 4.6). -/
inductive PingResult
  | rtt (millis : Nat)
  | TimedOut
  deriving DecidableEq, Repr

/-- The environment a single ping cycle runs against: whether address
resolution succeeds within its bounded retries, whether the datalink
transmit succeeds, and the time (milliseconds after the send) at which a
matching echo reply arrives, if one ever does. -/
structure PingEnv where
  resolves : Bool
  transmits : Bool
  replyAt : Option Nat
  deriving DecidableEq, Repr

/-- Outcome of a ping cycle: the result, the elapsed milliseconds at the
moment of return, and the Pending Request Table after return. -/
structure PingOutcome where
  result : PingResult
  elapsed : Nat
  pendingAfter : List Nat
  deriving DecidableEq, Repr

/-- Modelled from the spec: the caller-side wait loop of
`ping`/`waitForReply` (spec sections 4.5 and 4.6).  The foreground code
polls once per elapsed millisecond `now`, first checking the caller's
budget against the elapsed time and on expiry removing its own pending
entry; otherwise, if the matching echo reply has arrived at this instant,
returning the measured round-trip time with the entry removed by the reply
handler.  The implementation is not part of the source excerpt; only the
calling example (`part_001` lines 695-717) is. -/
def Ping.waitForReply (replyAt : Option Nat) (budget now : Nat)
    (table : List Nat) (seq : Nat) : PingResult × Nat × List Nat :=
  if h : budget ≤ now then
    (PingResult.TimedOut, now, table.erase seq)
  else if replyAt = some now then
    (PingResult.rtt now, now, table.erase seq)
  else
    Ping.waitForReply replyAt budget (now + 1) table seq
termination_by budget - now
decreasing_by omega

/-- Modelled from the spec: `ping(destIp, budgetMillis)` (spec section 4.6)
orchestrates one resolve, send, wait, measure cycle: address-resolution
failure and transmit failure surface as `TimedOut`; otherwise an echo
request with sequence number `seq` is recorded in the Pending Request Table
and the caller waits, from elapsed time 0, for the matching reply or the
expiry of its budget.  The implementation is not part of the source
excerpt; only its call site (`part_001` line 702) is. -/
def Ping.ping (env : PingEnv) (budget : Nat) (seq : Nat) : PingOutcome :=
  if env.resolves = false then
    { result := PingResult.TimedOut, elapsed := 0, pendingAfter := [] }
  else if env.transmits = false then
    { result := PingResult.TimedOut, elapsed := 0, pendingAfter := [] }
  else
    let w := Ping.waitForReply env.replyAt budget 0 [seq] seq
    { result := w.1, elapsed := w.2.1, pendingAfter := w.2.2 }

/-! ## ICMP transport: pending request table and echo-reply correlation -/

/-- State of the ICMP transport: the Pending Request Table (sequence
numbers of outstanding echo requests, in send order) plus a ghost log of
every `EchoReplyReceived` event published, identified by its sequence
number, in publication order (spec sections 3 and 4.5). -/
structure IcmpState where
  pending : List Nat
  fired : List Nat
  deriving DecidableEq, Repr

/-- The operations that touch the Pending Request Table: the caller sends
an echo request, a reply frame arrives, or the caller times out and
abandons its own entry. -/
inductive IcmpOp
  | send (seq : Nat)
  | reply (seq : Nat)
  | timeout (seq : Nat)
  deriving DecidableEq, Repr

/-- Modelled from the spec: the ICMP transport's handling of the Pending
Request Table (spec sections 4.5 and 3).  `sendEchoRequest` records an
entry (sequence numbers are unique while pending, so a sequence number
already pending is not recorded twice); `onPacketReceived` with an echo
reply whose sequence number matches a pending entry removes the entry and
publishes `EchoReplyReceived`, while replies with no matching pending entry
are dropped; a caller timeout removes the caller's own entry and is
idempotent against a late-arriving reply.  The implementation is not part
of the source excerpt. -/
def icmpStep (s : IcmpState) : IcmpOp → IcmpState
  | IcmpOp.send seq =>
      if seq ∈ s.pending then s
      else { s with pending := s.pending ++ [seq] }
  | IcmpOp.reply seq =>
      if seq ∈ s.pending then
        { pending := s.pending.erase seq, fired := s.fired ++ [seq] }
      else s
  | IcmpOp.timeout seq =>
      if seq ∈ s.pending then
        { s with pending := s.pending.erase seq }
      else s

/-- Running a sequence of ICMP operations from the empty table. -/
def runIcmp (ops : List IcmpOp) : IcmpState :=
  ops.foldl icmpStep { pending := [], fired := [] }

/-- The sequence numbers handed to `sendEchoRequest` in a trace. -/
def sendSeqs (ops : List IcmpOp) : List Nat :=
  ops.filterMap (fun op =>
    match op with
    | IcmpOp.send seq => some seq
    | _ => none)

/-! ## ARP address resolution layer -/

/-- State of an ARP cache entry (spec section 3). -/
inductive ArpEntryState
  | PENDING
  | RESOLVED
  deriving DecidableEq, Repr

/-- An ARP cache entry: IP address, hardware address, resolution state
(spec section 3: the age/expiry tick is represented by the entry's
position in the FIFO-ordered cache list; expiry itself needs the passage
of ticks, which the operations below do not advance). -/
structure ArpEntry where
  ip : Nat
  hw : Nat
  state : ArpEntryState
  deriving DecidableEq, Repr

/-- The ARP cache: the fixed-capacity entry list in insertion (FIFO) order,
oldest first, plus a ghost record of the hardware address of the most
recently accepted reply for each IP. -/
structure ArpCache where
  entries : List ArpEntry
  lastAccepted : Nat → Option Nat

/-- The operations of the address-resolution layer that mutate the cache:
a `resolve(ip)` call from above, or the receipt of a resolution reply frame
carrying `(ip, hw)` (spec section 4.3). -/
inductive ArpOp
  | resolve (ip : Nat)
  | reply (ip : Nat) (hw : Nat)
  deriving DecidableEq, Repr

/-- Look up the cache entry for an IP address. -/
def findEntry (entries : List ArpEntry) (ip : Nat) : Option ArpEntry :=
  entries.find? (fun e => e.ip == ip)

/-- Whether an entry is RESOLVED, as a Boolean predicate. -/
def isResolvedEntry (e : ArpEntry) : Bool :=
  e.state == ArpEntryState.RESOLVED

/-- Modelled from the spec: insertion into the fixed-capacity cache (spec
sections 3 and 4.3).  Below capacity the entry is appended (newest last);
at capacity the oldest RESOLVED entry is evicted (FIFO on RESOLVED
entries) to make room; if every entry is PENDING the insertion is refused
(`none`). -/
def insertArpEntry (cap : Nat) (entries : List ArpEntry) (e : ArpEntry) :
    Option (List ArpEntry) :=
  if entries.length < cap then
    some (entries ++ [e])
  else if entries.any isResolvedEntry then
    some (entries.eraseP isResolvedEntry ++ [e])
  else
    none

/-- Modelled from the spec: the cache mutations of the ARP layer (spec
section 4.3).  `resolve(ip)` on a hit leaves the cache unchanged (the entry
or its PENDING state is reported to the caller); on a miss it inserts a
PENDING entry and transmits a resolution request.  A resolution reply for
an IP already in the cache updates that entry in place to RESOLVED with the
reply's hardware address; a reply for an address not in the cache is
inserted speculatively, bounded by the cache capacity.  A reply is
*accepted* exactly when it updates or inserts an entry, and the ghost
`lastAccepted` map records it. -/
def arpStep (cap : Nat) (s : ArpCache) : ArpOp → ArpCache
  | ArpOp.resolve ip =>
      match findEntry s.entries ip with
      | some _ => s
      | none =>
          match insertArpEntry cap s.entries
              { ip := ip, hw := 0, state := ArpEntryState.PENDING } with
          | some entries' => { s with entries := entries' }
          | none => s
  | ArpOp.reply ip hw =>
      match findEntry s.entries ip with
      | some _ =>
          { entries := s.entries.map (fun e =>
              if e.ip == ip then { ip := ip, hw := hw, state := ArpEntryState.RESOLVED }
              else e),
            lastAccepted := fun j => if j = ip then some hw else s.lastAccepted j }
      | none =>
          match insertArpEntry cap s.entries
              { ip := ip, hw := hw, state := ArpEntryState.RESOLVED } with
          | some entries' =>
              { entries := entries',
                lastAccepted := fun j => if j = ip then some hw else s.lastAccepted j }
          | none => s

/-- Running a sequence of ARP operations from the empty cache. -/
def runArp (cap : Nat) (ops : List ArpOp) : ArpCache :=
  ops.foldl (arpStep cap) { entries := [], lastAccepted := fun _ => none }

/-- The IP addresses held by the cache entries, in FIFO order. -/
def ipsOf (entries : List ArpEntry) : List Nat :=
  entries.map (fun e => e.ip)

/-- The invariant that every RESOLVED entry's hardware address equals the
most recently accepted reply for its IP. -/
def resolvedMatchesLastAccepted (s : ArpCache) : Prop :=
  ∀ e ∈ s.entries, e.state = ArpEntryState.RESOLVED →
    s.lastAccepted e.ip = some e.hw

/-! ## Network stack orchestrator -/

/-- The orchestrator's state machine (spec section 4.7):
`UNINITIALISED → INITIALISED → RUNNING → (ERROR)`. -/
inductive StackState
  | UNINITIALISED
  | INITIALISED
  | RUNNING
  | ERROR
  deriving DecidableEq, Repr

/-- The typed failure conditions of `initialise` and `startup`
(spec section 4.7). -/
inductive StackError
  | ConfigurationInvalid
  | DeviceInitFailed
  | DeviceStartFailed
  deriving DecidableEq, Repr

/-- The environment an orchestrator lifecycle step runs against: whether
the supplied configuration validates, whether device initialisation
succeeds, and whether enabling the DMA and interrupt sources succeeds. -/
structure StackEnv where
  configValid : Bool
  deviceInitOk : Bool
  deviceStartOk : Bool
  deriving DecidableEq, Repr

/-- Modelled from the spec: `NetworkStack::initialise(config)` called in
state `UNINITIALISED` (spec section 4.7): validates configuration, wires
the dispatch subscriptions, applies static addressing; fails with
`ConfigurationInvalid` or `DeviceInitFailed` and stays `UNINITIALISED` on
any step failure; on success the state becomes `INITIALISED`.  The
implementation is not part of the source excerpt; only its call site
(`part_001` line 669) is. -/
def NetworkStack.initialise (env : StackEnv) : StackState × Option StackError :=
  if env.configValid = false then
    (StackState.UNINITIALISED, some StackError.ConfigurationInvalid)
  else if env.deviceInitOk = false then
    (StackState.UNINITIALISED, some StackError.DeviceInitFailed)
  else
    (StackState.INITIALISED, none)

/-- Modelled from the spec: `NetworkStack::startup()` called in state
`INITIALISED` (spec section 4.7): enables DMA and interrupt sources and
transitions to `RUNNING`; on failure it fails with `DeviceStartFailed` and
the stack remains `INITIALISED`, so `startup` is retriable.  The
implementation is not part of the source excerpt; only its call site
(`part_001` line 692) is. -/
def NetworkStack.startup (env : StackEnv) : StackState × Option StackError :=
  if env.deviceStartOk then
    (StackState.RUNNING, none)
  else
    (StackState.INITIALISED, some StackError.DeviceStartFailed)

/-! ## Static address configuration lifecycle -/

/-- A static address configuration: local IP, subnet mask and default
gateway, as set in `part_001` lines 661-663. -/
structure NetConfig where
  address : String
  subnetMask : String
  defaultGateway : String
  deriving DecidableEq, Repr

/-- Lifecycle events logged by the stack, in order: the one-time
application of the static address configuration during `initialise`, the
datalink startup performed by `startup()`, and the steps of normal
operation. -/
inductive LifecycleEvent
  | applyStaticAddress
  | datalinkStart
  | normalOp
  deriving DecidableEq, Repr

/-- The operations of normal (post-`startup`) operation: ping cycles,
frame receptions and timeout polls. -/
inductive NormalOp
  | pingCycle
  | frameReceived
  | timeoutPoll
  deriving DecidableEq, Repr

/-- The stack state observed by the static-address lifecycle: the applied
address configuration (if any), scratch state standing for all the mutable
per-layer state that normal operation does change, and a ghost log of
lifecycle events in order. -/
structure NetState where
  addrConfig : Option NetConfig
  scratch : Nat
  log : List LifecycleEvent
  deriving DecidableEq, Repr

/-- Modelled from the spec: the static-address client applies the
configured address/mask/gateway once during stack `initialise`, before
datalink startup (spec sections 4.4 and 4.6).  The implementation is not
part of the source excerpt; only the configuration site (`part_001` lines
654-669) is. -/
def initialiseAddressing (cfg : NetConfig) (s : NetState) : NetState :=
  { s with addrConfig := some cfg,
           log := s.log ++ [LifecycleEvent.applyStaticAddress] }

/-- Modelled from the spec: `startup()` starts the datalink DMA and
interrupt sources (spec section 4.7); it does not touch the address
configuration. -/
def startDatalink (s : NetState) : NetState :=
  { s with log := s.log ++ [LifecycleEvent.datalinkStart] }

/-- Modelled from the spec: one step of normal operation (spec sections
4.3-4.6).  Normal operation mutates per-layer state (`scratch`) but there
is no dynamic re-acquisition path for the address configuration, which is
read-only after `initialise`. -/
def normalStep (op : NormalOp) (s : NetState) : NetState :=
  { s with scratch := s.scratch + (match op with
      | NormalOp.pingCycle => 1
      | NormalOp.frameReceived => 2
      | NormalOp.timeoutPoll => 3),
           log := s.log ++ [LifecycleEvent.normalOp] }

/-- A complete run of the stack: `initialise` with configuration `cfg`,
then `startup`, then an arbitrary sequence of normal operations. -/
def runStackLifecycle (cfg : NetConfig) (ops : List NormalOp) : NetState :=
  ops.foldl (fun s op => normalStep op s)
    (startDatalink (initialiseAddressing cfg
      { addrConfig := none, scratch := 0, log := [] }))

/-! ## Shared-resource policy (interrupt vs. foreground mutation) -/

/-- The execution context of a mutation of shared state: a specific
interrupt source, or foreground code (spec section 5). -/
inductive ExecContext
  | interruptCtx (irq : Nat)
  | foregroundCtx
  deriving DecidableEq, Repr

/-- One mutation site of a piece of shared state, as found in the source:
the context it executes in and whether the mutating code runs with the
interrupt source that also mutates the state disabled. -/
structure MutationSite where
  ctx : ExecContext
  interruptsMasked : Bool
  deriving DecidableEq, Repr

/-- A piece of state shared between interrupt context and foreground code,
with the list of its mutation sites as they appear in the source. -/
structure SharedState where
  name : String
  mutations : List MutationSite
  deriving DecidableEq, Repr

/-- Alternative (a) of the shared-resource policy (spec section 5): the
state is mutated exclusively by one interrupt source and only read
elsewhere. -/
def singleInterruptWriter (v : SharedState) : Bool :=
  match v.mutations with
  | [] => true
  | m :: rest =>
      match m.ctx with
      | ExecContext.foregroundCtx => false
      | ExecContext.interruptCtx i =>
          rest.all (fun m2 => m2.ctx == ExecContext.interruptCtx i)

/-- Alternative (b) of the shared-resource policy (spec section 5): every
foreground mutation occurs with the relevant interrupt source disabled. -/
def foregroundMutationsMasked (v : SharedState) : Bool :=
  v.mutations.all (fun m =>
    match m.ctx with
    | ExecContext.interruptCtx _ => true
    | ExecContext.foregroundCtx => m.interruptsMasked)

/-- The shared-resource policy of spec section 5: each piece of
interrupt/foreground shared state satisfies alternative (a) or (b). -/
def compliesWithSharedResourcePolicy (v : SharedState) : Bool :=
  singleInterruptWriter v || foregroundMutationsMasked v

/-- The `_linkStatusChanged` flag of `NetPingClientTest`
(src/unnamed/part_001): written `true` by the EXTI line-14 interrupt
callback `onLinkStatusChange` (line 750), and written `false` from
foreground code in `run` — the pre-subscription reset at line 638 and,
with the EXTI interrupt source enabled and not masked, the clear inside
the main loop at line 715. -/
def linkStatusChangedFlag : SharedState :=
  { name := "_linkStatusChanged",
    mutations :=
      [ { ctx := ExecContext.interruptCtx 14, interruptsMasked := false },
        { ctx := ExecContext.foregroundCtx, interruptsMasked := false },
        { ctx := ExecContext.foregroundCtx, interruptsMasked := false } ] }

/-- The `_ready` flag of `CanMasterSendReceive` (src/unnamed/part_002):
written `true` by the CAN FMP0 interrupt callback `onCanInterrupt`
(line 144), and written `false` from the foreground loop (line 97) after
the FMP0 interrupt was enabled (line 74), without masking. -/
def canReadyFlag : SharedState :=
  { name := "_ready",
    mutations :=
      [ { ctx := ExecContext.interruptCtx 20, interruptsMasked := false },
        { ctx := ExecContext.foregroundCtx, interruptsMasked := false } ] }

/-! ## Helper lemmas -/

theorem nodup_append_singleton {α : Type} {l : List α} {a : α}
    (h : l.Nodup) (ha : a ∉ l) : (l ++ [a]).Nodup := by
  simp [List.nodup_append, h, ha]

theorem subscribeAll_subscribers (ops : List (SourceId × SubscriberId)) :
    (subscribeAll ops).subscribers = ops := by
  have go : ∀ (l : List (SourceId × SubscriberId)) (acc : EventSourceRegistry),
      (l.foldl (fun r p => insertSubscriber r p.1 p.2) acc).subscribers
        = acc.subscribers ++ l := by
    intro l
    induction l with
    | nil => intro acc; simp
    | cons p t ih =>
        intro acc
        rw [List.foldl_cons, ih]
        simp [insertSubscriber]
  simpa [subscribeAll] using go ops { subscribers := [] }

/-! ## Claim theorems -/

/-- C1: for every event source and every sequence of subscribe operations,
`publish(sourceId, event)` invokes exactly the subscribers currently
registered for `sourceId`, each exactly once, in the order in which they
were registered, passing the event unchanged: the invocation sequence
equals the registration sequence restricted to that source. -/
theorem publish_dispatches_in_registration_order
    (ops : List (SourceId × SubscriberId)) (src : SourceId) (ev : Nat) :
    publish (subscribeAll ops) src ev
      = (ops.filter (fun p => p.1 == src)).map (fun p => (p.2, ev)) := by
  unfold publish
  rw [subscribeAll_subscribers]

/-- C5: the orchestrator's state machine — a failing `initialise(config)`
fails with `ConfigurationInvalid` or `DeviceInitFailed` and the state
remains `UNINITIALISED`; a successful `initialise` yields `INITIALISED`;
a failing `startup()` fails with `DeviceStartFailed` and the state
remains `INITIALISED`; `startup` is retriable: whenever the device start
succeeds, it transitions to `RUNNING`. -/
theorem stack_orchestrator_state_machine (env : StackEnv) :
    ((NetworkStack.initialise env).2 ≠ none →
        (NetworkStack.initialise env).1 = StackState.UNINITIALISED ∧
        ((NetworkStack.initialise env).2 = some StackError.ConfigurationInvalid ∨
         (NetworkStack.initialise env).2 = some StackError.DeviceInitFailed)) ∧
    ((NetworkStack.initialise env).2 = none →
        (NetworkStack.initialise env).1 = StackState.INITIALISED) ∧
    ((NetworkStack.startup env).2 ≠ none →
        (NetworkStack.startup env).2 = some StackError.DeviceStartFailed ∧
        (NetworkStack.startup env).1 = StackState.INITIALISED) ∧
    (env.deviceStartOk = true →
        NetworkStack.startup env = (StackState.RUNNING, none)) := by
  obtain ⟨cv, di, ds⟩ := env
  cases cv <;> cases di <;> cases ds <;>
    simp [NetworkStack.initialise, NetworkStack.startup]

/-- Witness for C5: with a valid configuration, a working device
initialisation and a failing device start, `startup` reports
`DeviceStartFailed` and the state remains `INITIALISED`. -/
theorem stack_orchestrator_state_machine_witness :
    (NetworkStack.startup
        { configValid := true, deviceInitOk := true, deviceStartOk := false }).2
      = some StackError.DeviceStartFailed ∧
    (NetworkStack.startup
        { configValid := true, deviceInitOk := true, deviceStartOk := false }).1
      = StackState.INITIALISED :=
  (stack_orchestrator_state_machine
    { configValid := true, deviceInitOk := true, deviceStartOk := false }).2.2.1
    (by decide)

/-- C9: in the ADC example's interrupt callback
`onInterrupt(eventType, adcNumber)`, the ready flag is set to `true`
exactly when `adcNumber = 1` and the event is
`EVENT_REGULAR_END_OF_CONVERSION`; for every other pair the callback
leaves all state, including the ready flag, unchanged. -/
theorem adc_onInterrupt_frame_effect (e : AdcEventType) (n : Nat)
    (s : AdcSingleInterruptsState) :
    (n = 1 ∧ e = AdcEventType.EVENT_REGULAR_END_OF_CONVERSION →
        AdcSingleInterrupts.onInterrupt e n s = { s with _ready := true }) ∧
    (¬(n = 1 ∧ e = AdcEventType.EVENT_REGULAR_END_OF_CONVERSION) →
        AdcSingleInterrupts.onInterrupt e n s = s) := by
  constructor <;> intro h
  · simp [AdcSingleInterrupts.onInterrupt, h]
  · simp [AdcSingleInterrupts.onInterrupt, h]

/-- Witness for C9: the matching pair sets the flag; an analog-watchdog
event on ADC 1 changes nothing. -/
theorem adc_onInterrupt_frame_effect_witness :
    AdcSingleInterrupts.onInterrupt
        AdcEventType.EVENT_REGULAR_END_OF_CONVERSION 1 { _ready := false }
      = { _ready := true } ∧
    AdcSingleInterrupts.onInterrupt
        AdcEventType.EVENT_ANALOG_WATCHDOG 1 { _ready := false }
      = { _ready := false } :=
  ⟨(adc_onInterrupt_frame_effect _ _ _).1 (by exact ⟨rfl, rfl⟩),
   (adc_onInterrupt_frame_effect _ _ _).2 (by simp)⟩

/-- C10: every `DeviceSdkSetupStageInterruptEvent` carries the event kind
`DEVICE_IRQ_SETUP_STAGE`: the type's only constructor sets the
descriptor's event type to that value, so no value of the type can be
observed with any other kind. -/
theorem deviceSdkSetupStageInterruptEvent_kind
    (e : DeviceSdkSetupStageInterruptEvent) :
    e.toUsbEventDescriptor.eventType = UsbEventType.DEVICE_IRQ_SETUP_STAGE :=
  rfl

/-- C8 (failing): the shared-resource policy of spec section 5 does not
hold of the code — the `_linkStatusChanged` flag of `NetPingClientTest`
(`part_001` lines 638, 715, 750) and the `_ready` flag of
`CanMasterSendReceive` (`part_002` lines 97, 144) are each mutated both
from an interrupt callback and from foreground code without disabling the
interrupt source. -/
theorem sharedResourcePolicy_violated_by_examples :
    compliesWithSharedResourcePolicy linkStatusChangedFlag = false ∧
    compliesWithSharedResourcePolicy canReadyFlag = false := by
  decide

/-- Normal operation never touches the address configuration and logs only
`normalOp` events. -/
theorem normal_ops_preserve_addrConfig (ops : List NormalOp) :
    ∀ s : NetState,
      (ops.foldl (fun s op => normalStep op s) s).addrConfig = s.addrConfig ∧
      (ops.foldl (fun s op => normalStep op s) s).log
        = s.log ++ ops.map (fun _ => LifecycleEvent.normalOp) := by
  induction ops with
  | nil => intro s; simp
  | cons op t ih =>
      intro s
      rw [List.foldl_cons]
      obtain ⟨h1, h2⟩ := ih (normalStep op s)
      refine ⟨?_, ?_⟩
      · rw [h1]; rfl
      · rw [h2]; simp [normalStep]

/-- C7: in every complete run — `initialise(cfg)`, then `startup`, then any
sequence of normal operations — the static address configuration is
applied exactly once, during `initialise` and before datalink startup
(the lifecycle log begins `applyStaticAddress, datalinkStart` and contains
no further application), and the configured addresses stay unchanged for
every post-initialise sequence of operations. -/
theorem static_address_applied_once_before_startup
    (cfg : NetConfig) (ops : List NormalOp) :
    (runStackLifecycle cfg ops).addrConfig = some cfg ∧
    (runStackLifecycle cfg ops).log
      = LifecycleEvent.applyStaticAddress :: LifecycleEvent.datalinkStart ::
          ops.map (fun _ => LifecycleEvent.normalOp) ∧
    (runStackLifecycle cfg ops).log.count LifecycleEvent.applyStaticAddress
      = 1 := by
  unfold runStackLifecycle
  obtain ⟨h1, h2⟩ := normal_ops_preserve_addrConfig ops
    (startDatalink (initialiseAddressing cfg
      { addrConfig := none, scratch := 0, log := [] }))
  refine ⟨?_, ?_, ?_⟩
  · rw [h1]; rfl
  · rw [h2]; simp [startDatalink, initialiseAddressing]
  · rw [h2]
    simp [startDatalink, initialiseAddressing, List.count_cons]
    rw [List.count_eq_zero]
    intro h
    exact absurd (List.eq_of_mem_replicate h) (by simp)

/-- C6: `hasTimedOut(mark, budget)` is overflow-safe: when the true number
of elapsed milliseconds `e` since `mark` is less than one full wrap of the
32-bit monotonic counter, the comparison — computed on the wrapped counter
reading `mark + e` — returns `true` exactly when `e` reaches or exceeds
the budget, even when the counter has wrapped between `mark` and the
current reading. -/
theorem hasTimedOut_overflow_safe (mark e budget : Nat) (he : e < U32) :
    MillisecondTimer.hasTimedOut (mark + e) mark budget = true ↔ budget ≤ e := by
  have helapsed : MillisecondTimer.elapsedSince (mark + e) mark = e := by
    unfold MillisecondTimer.elapsedSince U32 at *
    omega
  unfold MillisecondTimer.hasTimedOut
  rw [helapsed]
  exact decide_eq_true_iff

/-- Witness for C6: with the counter five milliseconds from wrap-around at
`mark` and ten true elapsed milliseconds (so the reading has wrapped), a
budget of seven has timed out. -/
theorem hasTimedOut_overflow_safe_witness :
    MillisecondTimer.hasTimedOut (4294967291 + 10) 4294967291 7 = true ↔ 7 ≤ 10 :=
  hasTimedOut_overflow_safe 4294967291 10 7 (by norm_num [U32])

/-- When no reply ever arrives, the wait loop runs until the budget has
exactly elapsed, removes the caller's pending entry, and reports
`TimedOut`. -/
theorem waitForReply_no_reply (budget : Nat) :
    ∀ now table seq, now ≤ budget →
      Ping.waitForReply none budget now table seq
        = (PingResult.TimedOut, budget, table.erase seq) := by
  have H : ∀ d now table seq, budget - now = d → now ≤ budget →
      Ping.waitForReply none budget now table seq
        = (PingResult.TimedOut, budget, table.erase seq) := by
    intro d
    induction d with
    | zero =>
        intro now table seq hd hle
        have hge : budget ≤ now := by omega
        have heq : now = budget := by omega
        unfold Ping.waitForReply
        rw [dif_pos hge, heq]
    | succ k ih =>
        intro now table seq hd hle
        unfold Ping.waitForReply
        rw [dif_neg (by omega)]
        rw [if_neg (by simp)]
        exact ih (now + 1) table seq (by omega) (by omega)
  intro now table seq h
  exact H (budget - now) now table seq rfl h

/-- When the matching reply arrives at `t` within the budget, the wait
loop returns the measured round-trip time `t` with the pending entry
removed. -/
theorem waitForReply_reply_in_time (budget t : Nat) (ht : t < budget) :
    ∀ now table seq, now ≤ t →
      Ping.waitForReply (some t) budget now table seq
        = (PingResult.rtt t, t, table.erase seq) := by
  have H : ∀ d now table seq, t - now = d → now ≤ t →
      Ping.waitForReply (some t) budget now table seq
        = (PingResult.rtt t, t, table.erase seq) := by
    intro d
    induction d with
    | zero =>
        intro now table seq hd hle
        have heq : now = t := by omega
        unfold Ping.waitForReply
        rw [dif_neg (by omega), if_pos (by rw [heq]), heq]
    | succ k ih =>
        intro now table seq hd hle
        unfold Ping.waitForReply
        rw [dif_neg (by omega)]
        rw [if_neg (by simp; omega)]
        exact ih (now + 1) table seq (by omega) (by omega)
  intro now table seq h
  exact H (t - now) now table seq rfl h

/-- When the reply would only arrive at or after the budget's expiry, the
wait loop times out at exactly the budget with the entry removed. -/
theorem waitForReply_reply_late (budget t : Nat) (ht : budget ≤ t) :
    ∀ now table seq, now ≤ budget →
      Ping.waitForReply (some t) budget now table seq
        = (PingResult.TimedOut, budget, table.erase seq) := by
  have H : ∀ d now table seq, budget - now = d → now ≤ budget →
      Ping.waitForReply (some t) budget now table seq
        = (PingResult.TimedOut, budget, table.erase seq) := by
    intro d
    induction d with
    | zero =>
        intro now table seq hd hle
        have hge : budget ≤ now := by omega
        have heq : now = budget := by omega
        unfold Ping.waitForReply
        rw [dif_pos hge, heq]
    | succ k ih =>
        intro now table seq hd hle
        unfold Ping.waitForReply
        rw [dif_neg (by omega)]
        rw [if_neg (by simp; omega)]
        exact ih (now + 1) table seq (by omega) (by omega)
  intro now table seq h
  exact H (budget - now) now table seq rfl h

/-- C2: `ping(destIp, budgetMillis)` performs one resolve, send, wait,
measure cycle — address-resolution failure and transmit failure yield
`TimedOut`; with no reply ever arriving, `TimedOut` is returned after
exactly the budget has elapsed with the pending-table entry removed; a
matching reply within the budget yields the measured round-trip time; a
reply at or after the budget's expiry yields `TimedOut` at exactly the
budget. -/
theorem ping_resolve_send_wait_measure (env : PingEnv) (budget seq : Nat) :
    ((env.resolves = false ∨ env.transmits = false) →
        (Ping.ping env budget seq).result = PingResult.TimedOut) ∧
    (env.resolves = true → env.transmits = true → env.replyAt = none →
        Ping.ping env budget seq
          = { result := PingResult.TimedOut, elapsed := budget,
              pendingAfter := [] }) ∧
    (∀ t, env.resolves = true → env.transmits = true →
        env.replyAt = some t → t < budget →
        Ping.ping env budget seq
          = { result := PingResult.rtt t, elapsed := t,
              pendingAfter := [] }) ∧
    (∀ t, env.resolves = true → env.transmits = true →
        env.replyAt = some t → budget ≤ t →
        Ping.ping env budget seq
          = { result := PingResult.TimedOut, elapsed := budget,
              pendingAfter := [] }) := by
  have herase : ([seq].erase seq : List Nat) = [] := by simp
  refine ⟨?_, ?_, ?_, ?_⟩
  · rintro (h | h)
    · simp [Ping.ping, h]
    · simp only [Ping.ping, h]
      split <;> simp
  · intro h1 h2 h3
    simp only [Ping.ping, h1, h2, h3]
    rw [waitForReply_no_reply budget 0 [seq] seq (Nat.zero_le _)]
    simp [herase]
  · intro t h1 h2 h3 h4
    simp only [Ping.ping, h1, h2, h3]
    rw [waitForReply_reply_in_time budget t h4 0 [seq] seq (Nat.zero_le _)]
    simp [herase]
  · intro t h1 h2 h3 h4
    simp only [Ping.ping, h1, h2, h3]
    rw [waitForReply_reply_late budget t h4 0 [seq] seq (Nat.zero_le _)]
    simp [herase]

/-- Witness for C2 (the spec's Scenario 2): a peer replying after 50 ms
against a 2000 ms budget yields a measured round-trip time of 50 ms with
the pending table empty. -/
theorem ping_resolve_send_wait_measure_witness :
    Ping.ping { resolves := true, transmits := true, replyAt := some 50 } 2000 1
      = { result := PingResult.rtt 50, elapsed := 50, pendingAfter := [] } :=
  (ping_resolve_send_wait_measure
      { resolves := true, transmits := true, replyAt := some 50 } 2000 1).2.2.1
    50 rfl rfl rfl (by norm_num)

theorem sendSeqs_cons_send (q : Nat) (t : List IcmpOp) :
    sendSeqs (IcmpOp.send q :: t) = q :: sendSeqs t := by
  simp [sendSeqs]

theorem sendSeqs_cons_reply (q : Nat) (t : List IcmpOp) :
    sendSeqs (IcmpOp.reply q :: t) = sendSeqs t := by
  simp [sendSeqs]

theorem sendSeqs_cons_timeout (q : Nat) (t : List IcmpOp) :
    sendSeqs (IcmpOp.timeout q :: t) = sendSeqs t := by
  simp [sendSeqs]

/-- Each step of the ICMP transport preserves the uniqueness of the
pending sequence numbers. -/
theorem icmpStep_pending_nodup (s : IcmpState) (op : IcmpOp)
    (h : s.pending.Nodup) : (icmpStep s op).pending.Nodup := by
  cases op with
  | send q =>
      by_cases hq : q ∈ s.pending
      · simpa [icmpStep, hq] using h
      · simpa [icmpStep, hq] using nodup_append_singleton h hq
  | reply q =>
      by_cases hq : q ∈ s.pending
      · simpa [icmpStep, hq] using h.erase q
      · simpa [icmpStep, hq] using h
  | timeout q =>
      by_cases hq : q ∈ s.pending
      · simpa [icmpStep, hq] using h.erase q
      · simpa [icmpStep, hq] using h

/-- The counting invariant behind at-most-once reply events: the number of
`EchoReplyReceived` events for `seq`, plus the pending entries for `seq`,
plus the sends of `seq` still to come, never grows along a trace. -/
theorem icmp_count_go :
    ∀ (ops : List IcmpOp) (s : IcmpState) (seq : Nat),
      s.fired.count seq + s.pending.count seq + (sendSeqs ops).count seq ≤ 1 →
      (ops.foldl icmpStep s).fired.count seq ≤ 1 := by
  intro ops
  induction ops with
  | nil =>
      intro s seq hb
      simp only [List.foldl_nil]
      simp [sendSeqs] at hb
      omega
  | cons op t ih =>
      intro s seq hb
      rw [List.foldl_cons]
      apply ih
      cases op with
      | send q =>
          rw [sendSeqs_cons_send] at hb
          by_cases hqp : q ∈ s.pending
          · have hstep : icmpStep s (IcmpOp.send q) = s := by
              simp [icmpStep, hqp]
            rw [hstep]
            by_cases hq : seq = q
            · subst hq; rw [List.count_cons_self] at hb; omega
            · rw [List.count_cons_of_ne hq] at hb; omega
          · have hstep : icmpStep s (IcmpOp.send q)
                = { s with pending := s.pending ++ [q] } := by
              simp [icmpStep, hqp]
            rw [hstep]
            show s.fired.count seq + (s.pending ++ [q]).count seq
              + (sendSeqs t).count seq ≤ 1
            rw [List.count_append]
            by_cases hq : seq = q
            · subst hq
              rw [List.count_cons_self] at hb
              have h1 : ([seq] : List Nat).count seq = 1 := by simp
              omega
            · rw [List.count_cons_of_ne hq] at hb
              have h1 : ([q] : List Nat).count seq = 0 := by
                rw [List.count_cons_of_ne hq]; simp
              omega
      | reply q =>
          rw [sendSeqs_cons_reply] at hb
          by_cases hqp : q ∈ s.pending
          · have hstep : icmpStep s (IcmpOp.reply q)
                = { pending := s.pending.erase q, fired := s.fired ++ [q] } := by
              simp [icmpStep, hqp]
            rw [hstep]
            show (s.fired ++ [q]).count seq + (s.pending.erase q).count seq
              + (sendSeqs t).count seq ≤ 1
            rw [List.count_append]
            by_cases hq : seq = q
            · subst hq
              have hpc : 0 < s.pending.count seq := List.count_pos_iff.mpr hqp
              rw [List.count_erase_self]
              have h1 : ([seq] : List Nat).count seq = 1 := by simp
              omega
            · rw [List.count_erase_of_ne hq]
              have h1 : ([q] : List Nat).count seq = 0 := by
                rw [List.count_cons_of_ne hq]; simp
              omega
          · have hstep : icmpStep s (IcmpOp.reply q) = s := by
              simp [icmpStep, hqp]
            rw [hstep]
            exact hb
      | timeout q =>
          rw [sendSeqs_cons_timeout] at hb
          by_cases hqp : q ∈ s.pending
          · have hstep : icmpStep s (IcmpOp.timeout q)
                = { s with pending := s.pending.erase q } := by
              simp [icmpStep, hqp]
            rw [hstep]
            show s.fired.count seq + (s.pending.erase q).count seq
              + (sendSeqs t).count seq ≤ 1
            by_cases hq : seq = q
            · subst hq
              rw [List.count_erase_self]
              omega
            · rw [List.count_erase_of_ne hq]
              omega
          · have hstep : icmpStep s (IcmpOp.timeout q) = s := by
              simp [icmpStep, hqp]
            rw [hstep]
            exact hb

theorem runIcmp_append_singleton (l : List IcmpOp) (op : IcmpOp) :
    runIcmp (l ++ [op]) = icmpStep (runIcmp l) op := by
  simp [runIcmp, List.foldl_append]

/-- An `EchoReplyReceived` event for `seq` fires only because a reply with
that exact sequence number arrived at a moment when `seq` was still in the
Pending Request Table (i.e. after the send and before any caller
timeout removed it). -/
theorem icmp_fired_only_if_reply_while_pending :
    ∀ (ops : List IcmpOp) (seq : Nat), seq ∈ (runIcmp ops).fired →
      ∃ p q, ops = p ++ IcmpOp.reply seq :: q ∧ seq ∈ (runIcmp p).pending := by
  intro ops
  induction ops using List.reverseRecOn with
  | nil => intro seq h; simp [runIcmp] at h
  | append_singleton l op ih =>
      intro seq h
      rw [runIcmp_append_singleton] at h
      have hsame : ∀ r : List IcmpOp, seq ∈ (runIcmp l).fired →
          (∃ p q, l ++ r = p ++ IcmpOp.reply seq :: q ∧
            seq ∈ (runIcmp p).pending) := by
        intro r hmem
        obtain ⟨p, q, hpq, hp⟩ := ih seq hmem
        exact ⟨p, q ++ r, by rw [hpq]; simp, hp⟩
      cases op with
      | send q =>
          have hmem : seq ∈ (runIcmp l).fired := by
            by_cases hq : q ∈ (runIcmp l).pending
            · simpa [icmpStep, hq] using h
            · simpa [icmpStep, hq] using h
          exact hsame [IcmpOp.send q] hmem
      | timeout q =>
          have hmem : seq ∈ (runIcmp l).fired := by
            by_cases hq : q ∈ (runIcmp l).pending
            · simpa [icmpStep, hq] using h
            · simpa [icmpStep, hq] using h
          exact hsame [IcmpOp.timeout q] hmem
      | reply q =>
          by_cases hq : q ∈ (runIcmp l).pending
          · have h' : seq ∈ (runIcmp l).fired ++ [q] := by
              simpa [icmpStep, hq] using h
            rcases List.mem_append.mp h' with hmem | hone
            · exact hsame [IcmpOp.reply q] hmem
            · have hseq : seq = q := by simpa using hone
              subst hseq
              exact ⟨l, [], rfl, hq⟩
          · have hmem : seq ∈ (runIcmp l).fired := by
              simpa [icmpStep, hq] using h
            exact hsame [IcmpOp.reply q] hmem

/-- C3: for every sequence number and every interleaving of sends, reply
arrivals and caller timeouts (with sequence numbers unique among sends),
at most one `EchoReplyReceived` event fires for that sequence number; it
fires only if a reply with that exact sequence number arrives while the
entry is still pending (after the send, before the caller's timeout); and
once the entry is gone, a late reply or a second timeout leaves the state
exactly unchanged — no event, no table corruption, so the entry is removed
exactly once. -/
theorem icmp_echo_reply_correlation (ops : List IcmpOp) (seq : Nat)
    (hnd : (sendSeqs ops).Nodup) :
    (runIcmp ops).fired.count seq ≤ 1 ∧
    (seq ∈ (runIcmp ops).fired →
      ∃ p q, ops = p ++ IcmpOp.reply seq :: q ∧ seq ∈ (runIcmp p).pending) ∧
    (∀ s : IcmpState, seq ∉ s.pending →
      icmpStep s (IcmpOp.reply seq) = s ∧ icmpStep s (IcmpOp.timeout seq) = s) := by
  refine ⟨?_, icmp_fired_only_if_reply_while_pending ops seq, ?_⟩
  · apply icmp_count_go ops { pending := [], fired := [] } seq
    have : (sendSeqs ops).count seq ≤ 1 :=
      List.nodup_iff_count_le_one.mp hnd seq
    simpa using this
  · intro s hs
    constructor <;> simp [icmpStep, hs]

/-- Witness for C3: in a trace that sends sequence number 7, receives the
matching reply, then suffers a late caller timeout and a duplicate late
reply, the `EchoReplyReceived` event for 7 fires at most once. -/
theorem icmp_echo_reply_correlation_witness :
    (runIcmp [IcmpOp.send 7, IcmpOp.reply 7, IcmpOp.timeout 7,
      IcmpOp.reply 7]).fired.count 7 ≤ 1 :=
  (icmp_echo_reply_correlation
    [IcmpOp.send 7, IcmpOp.reply 7, IcmpOp.timeout 7, IcmpOp.reply 7] 7
    (by decide)).1

theorem findEntry_none_iff (c : List ArpEntry) (ip : Nat) :
    findEntry c ip = none ↔ ∀ e ∈ c, e.ip ≠ ip := by
  simp [findEntry, List.find?_eq_none]

theorem findEntry_none_ip_not_mem {c : List ArpEntry} {ip : Nat}
    (h : findEntry c ip = none) : ip ∉ ipsOf c := by
  rw [findEntry_none_iff] at h
  simp only [ipsOf, List.mem_map]
  rintro ⟨e, he, hip⟩
  exact h e he hip

theorem ipsOf_append_singleton (c : List ArpEntry) (e : ArpEntry) :
    ipsOf (c ++ [e]) = ipsOf c ++ [e.ip] := by
  simp [ipsOf]

theorem ipsOf_eraseP_subset (c : List ArpEntry) {x : Nat}
    (hx : x ∈ ipsOf (c.eraseP isResolvedEntry)) : x ∈ ipsOf c :=
  (((c.eraseP_sublist).map (fun e => e.ip)).subset) hx

theorem ipsOf_eraseP_nodup (c : List ArpEntry)
    (h : (ipsOf c).Nodup) : (ipsOf (c.eraseP isResolvedEntry)).Nodup := by
  simp only [ipsOf] at h ⊢
  exact List.Nodup.sublist ((c.eraseP_sublist).map (fun e => e.ip)) h

theorem insertArpEntry_nodup {cap : Nat} {c : List ArpEntry} {e : ArpEntry}
    {entries' : List ArpEntry} (h : (ipsOf c).Nodup) (hnm : e.ip ∉ ipsOf c)
    (hins : insertArpEntry cap c e = some entries') :
    (ipsOf entries').Nodup := by
  unfold insertArpEntry at hins
  split at hins
  · obtain rfl := Option.some.inj hins
    rw [ipsOf_append_singleton]
    exact nodup_append_singleton h hnm
  · split at hins
    · obtain rfl := Option.some.inj hins
      rw [ipsOf_append_singleton]
      exact nodup_append_singleton (ipsOf_eraseP_nodup c h)
        (fun hx => hnm (ipsOf_eraseP_subset c hx))
    · simp at hins

theorem insertArpEntry_mem {cap : Nat} {c : List ArpEntry} {e : ArpEntry}
    {entries' : List ArpEntry} (hins : insertArpEntry cap c e = some entries') :
    ∀ x ∈ entries', x ∈ c ∨ x = e := by
  unfold insertArpEntry at hins
  split at hins
  · obtain rfl := Option.some.inj hins
    intro x hx
    rcases List.mem_append.mp hx with h | h
    · exact Or.inl h
    · exact Or.inr (by simpa using h)
  · split at hins
    · obtain rfl := Option.some.inj hins
      intro x hx
      rcases List.mem_append.mp hx with h | h
      · exact Or.inl ((c.eraseP_sublist).subset h)
      · exact Or.inr (by simpa using h)
    · simp at hins

theorem ipsOf_replace (ipv hwv : Nat) :
    ∀ c : List ArpEntry,
      ipsOf (c.map (fun e =>
        if e.ip == ipv then
          { ip := ipv, hw := hwv, state := ArpEntryState.RESOLVED }
        else e)) = ipsOf c := by
  intro c
  induction c with
  | nil => rfl
  | cons x t _ih =>
      simp only [List.map_cons, ipsOf, List.map_cons] at _ih ⊢
      by_cases hx : x.ip = ipv
      · simp [hx]
        intro a _
        by_cases h2 : a.ip = ipv <;> simp [h2]
      · simp [hx]
        intro a _
        by_cases h2 : a.ip = ipv <;> simp [h2]

/-- Each ARP step preserves the invariant that the cache never holds two
entries for the same IP address. -/
theorem arpStep_ips_nodup (cap : Nat) (s : ArpCache) (op : ArpOp)
    (h : (ipsOf s.entries).Nodup) :
    (ipsOf (arpStep cap s op).entries).Nodup := by
  cases op with
  | resolve ip =>
      cases hfind : findEntry s.entries ip with
      | some e0 => simpa [arpStep, hfind] using h
      | none =>
          cases hins : insertArpEntry cap s.entries
              { ip := ip, hw := 0, state := ArpEntryState.PENDING } with
          | none => simpa [arpStep, hfind, hins] using h
          | some entries' =>
              have := insertArpEntry_nodup h (findEntry_none_ip_not_mem hfind) hins
              simpa [arpStep, hfind, hins] using this
  | reply ip hw =>
      cases hfind : findEntry s.entries ip with
      | some e0 =>
          have := ipsOf_replace ip hw s.entries
          simp only [arpStep, hfind]
          rw [this]
          exact h
      | none =>
          cases hins : insertArpEntry cap s.entries
              { ip := ip, hw := hw, state := ArpEntryState.RESOLVED } with
          | none => simpa [arpStep, hfind, hins] using h
          | some entries' =>
              have := insertArpEntry_nodup h (findEntry_none_ip_not_mem hfind) hins
              simpa [arpStep, hfind, hins] using this

/-- Each ARP step preserves the invariant that every RESOLVED entry's
hardware address equals the most recently accepted reply for that IP. -/
theorem arpStep_resolved (cap : Nat) (s : ArpCache) (op : ArpOp)
    (hinv : resolvedMatchesLastAccepted s) :
    resolvedMatchesLastAccepted (arpStep cap s op) := by
  cases op with
  | resolve ip =>
      cases hfind : findEntry s.entries ip with
      | some e0 => simpa [arpStep, hfind] using hinv
      | none =>
          cases hins : insertArpEntry cap s.entries
              { ip := ip, hw := 0, state := ArpEntryState.PENDING } with
          | none => simpa [arpStep, hfind, hins] using hinv
          | some entries' =>
              intro e he hres
              simp only [arpStep, hfind, hins] at he ⊢
              rcases insertArpEntry_mem hins e he with hmem | rfl
              · exact hinv e hmem hres
              · simp at hres
  | reply ip hw =>
      cases hfind : findEntry s.entries ip with
      | some e0 =>
          intro e he hres
          simp only [arpStep, hfind] at he ⊢
          obtain ⟨x, hx, rfl⟩ := List.mem_map.mp he
          by_cases hxip : x.ip = ip
          · simp [hxip]
          · simp [hxip] at hres ⊢
            exact hinv x hx hres
      | none =>
          cases hins : insertArpEntry cap s.entries
              { ip := ip, hw := hw, state := ArpEntryState.RESOLVED } with
          | none => simpa [arpStep, hfind, hins] using hinv
          | some entries' =>
              intro e he _hres
              simp only [arpStep, hfind, hins] at he ⊢
              rcases insertArpEntry_mem hins e he with hmem | rfl
              · have hne : e.ip ≠ ip :=
                  (findEntry_none_iff s.entries ip).mp hfind e hmem
                rw [if_neg hne]
                exact hinv e hmem _hres
              · simp

/-- The oldest RESOLVED entry (the first one in FIFO order, as located by
`find?`) is gone from the cache after `eraseP`: no remaining entry carries
its IP address. -/
theorem find?_resolved_eraseP_not_mem :
    ∀ (c : List ArpEntry) (old : ArpEntry), (ipsOf c).Nodup →
      c.find? isResolvedEntry = some old →
      old.ip ∉ ipsOf (c.eraseP isResolvedEntry) := by
  intro c
  induction c with
  | nil => intro old _ hf; simp at hf
  | cons x t ih =>
      intro old hnd hf
      have hnd' : x.ip ∉ ipsOf t ∧ (ipsOf t).Nodup := by
        simpa [ipsOf] using hnd
      by_cases hx : isResolvedEntry x = true
      · rw [List.find?_cons_of_pos _ hx] at hf
        obtain rfl := Option.some.inj hf
        rw [List.eraseP_cons_of_pos hx]
        exact hnd'.1
      · rw [List.find?_cons_of_neg _ hx] at hf
        rw [List.eraseP_cons_of_neg hx]
        have hold_mem : old ∈ t := List.mem_of_find?_eq_some hf
        have hold_ip : old.ip ∈ ipsOf t := by
          simp only [ipsOf, List.mem_map]
          exact ⟨old, hold_mem, rfl⟩
        intro hcon
        rcases (by simpa [ipsOf] using hcon :
            old.ip = x.ip ∨ old.ip ∈ ipsOf (t.eraseP isResolvedEntry)) with h | h
        · exact hnd'.1 (h ▸ hold_ip)
        · exact ih old hnd'.2 hf h

/-- The two trace invariants of the ARP cache, established together over
any operation sequence from the empty cache. -/
theorem runArp_inv (cap : Nat) (ops : List ArpOp) :
    (ipsOf (runArp cap ops).entries).Nodup ∧
    resolvedMatchesLastAccepted (runArp cap ops) := by
  have go : ∀ (l : List ArpOp) (s : ArpCache),
      (ipsOf s.entries).Nodup → resolvedMatchesLastAccepted s →
      (ipsOf (l.foldl (arpStep cap) s).entries).Nodup ∧
        resolvedMatchesLastAccepted (l.foldl (arpStep cap) s) := by
    intro l
    induction l with
    | nil => intro s h1 h2; exact ⟨h1, h2⟩
    | cons op t ih =>
        intro s h1 h2
        rw [List.foldl_cons]
        exact ih _ (arpStep_ips_nodup cap s op h1) (arpStep_resolved cap s op h2)
  have hinit : resolvedMatchesLastAccepted
      { entries := [], lastAccepted := fun _ => none } := by
    intro e he _
    simp at he
  have := go ops { entries := [], lastAccepted := fun _ => none }
    (by simp [ipsOf]) hinit
  simpa [runArp] using this

/-- C4: along every sequence of resolve and reply operations, the ARP cache
never holds two entries for the same IP address; every RESOLVED entry's
hardware address equals the most recently accepted reply for that IP; and
when the fixed-capacity cache is full, a new insertion (a resolve miss)
evicts the oldest (FIFO) RESOLVED entry, inserts the new PENDING entry,
and keeps the cache at capacity. -/
theorem arp_cache_correctness (cap : Nat) (ops : List ArpOp) :
    (ipsOf (runArp cap ops).entries).Nodup ∧
    resolvedMatchesLastAccepted (runArp cap ops) ∧
    (∀ (s : ArpCache) (ip : Nat) (old : ArpEntry),
      (ipsOf s.entries).Nodup →
      ¬ s.entries.length < cap →
      findEntry s.entries ip = none →
      s.entries.find? isResolvedEntry = some old →
      old.ip ∉ ipsOf (arpStep cap s (ArpOp.resolve ip)).entries ∧
      (∃ e ∈ (arpStep cap s (ArpOp.resolve ip)).entries,
          e.ip = ip ∧ e.state = ArpEntryState.PENDING) ∧
      (arpStep cap s (ArpOp.resolve ip)).entries.length = s.entries.length) := by
  refine ⟨(runArp_inv cap ops).1, (runArp_inv cap ops).2, ?_⟩
  intro s ip old hnodup hfull hmiss hold
  have hres : isResolvedEntry old = true := List.find?_some hold
  have hmem : old ∈ s.entries := List.mem_of_find?_eq_some hold
  have hany : s.entries.any isResolvedEntry = true :=
    List.any_eq_true.mpr ⟨old, hmem, hres⟩
  have hins : insertArpEntry cap s.entries
      { ip := ip, hw := 0, state := ArpEntryState.PENDING }
      = some (s.entries.eraseP isResolvedEntry
          ++ [{ ip := ip, hw := 0, state := ArpEntryState.PENDING }]) := by
    unfold insertArpEntry
    rw [if_neg hfull, if_pos hany]
  have hstep : (arpStep cap s (ArpOp.resolve ip)).entries
      = s.entries.eraseP isResolvedEntry
          ++ [{ ip := ip, hw := 0, state := ArpEntryState.PENDING }] := by
    simp [arpStep, hmiss, hins]
  have hipnm : ip ∉ ipsOf s.entries := findEntry_none_ip_not_mem hmiss
  have hold_ip : old.ip ∈ ipsOf s.entries := by
    simp only [ipsOf, List.mem_map]
    exact ⟨old, hmem, rfl⟩
  refine ⟨?_, ?_, ?_⟩
  · rw [hstep, ipsOf_append_singleton]
    intro hcon
    rcases List.mem_append.mp hcon with h | h
    · exact find?_resolved_eraseP_not_mem s.entries old hnodup hold h
    · have : old.ip = ip := by simpa using h
      exact hipnm (this ▸ hold_ip)
  · rw [hstep]
    exact ⟨{ ip := ip, hw := 0, state := ArpEntryState.PENDING },
      by simp, rfl, rfl⟩
  · rw [hstep, List.length_append]
    have := List.length_eraseP_add_one hmem hres
    simp
    omega

/-- Witness for C4's eviction behaviour: a capacity-1 cache holding one
RESOLVED entry for IP 5, asked to resolve the unknown IP 6, evicts the
entry for 5, holds a PENDING entry for 6, and stays at length 1. -/
theorem arp_cache_correctness_witness :
    ({ ip := 5, hw := 9, state := ArpEntryState.RESOLVED } : ArpEntry).ip
        ∉ ipsOf (arpStep 1
          { entries := [{ ip := 5, hw := 9, state := ArpEntryState.RESOLVED }],
            lastAccepted := fun _ => none } (ArpOp.resolve 6)).entries ∧
    (∃ e ∈ (arpStep 1
          { entries := [{ ip := 5, hw := 9, state := ArpEntryState.RESOLVED }],
            lastAccepted := fun _ => none } (ArpOp.resolve 6)).entries,
        e.ip = 6 ∧ e.state = ArpEntryState.PENDING) ∧
    (arpStep 1
        { entries := [{ ip := 5, hw := 9, state := ArpEntryState.RESOLVED }],
          lastAccepted := fun _ => none } (ArpOp.resolve 6)).entries.length
      = 1 :=
  (arp_cache_correctness 1 []).2.2
    { entries := [{ ip := 5, hw := 9, state := ArpEntryState.RESOLVED }],
      lastAccepted := fun _ => none }
    6 { ip := 5, hw := 9, state := ArpEntryState.RESOLVED }
    (by simp [ipsOf]) (by decide) (by decide) (by decide)

end Stm32plus
